import Mathlib

/-!
# A command-driven text buffer (`main.go`): shallow embedding and verification

The Go program keeps one `Editor` value and mutates it through `insertText`,
`selectArea`, `moveCursor`, `copy` and `paste`.  Each Go function is embedded as a
function from the editor state to an `Outcome`: either the state after the call, or a
runtime fault together with the state the editor was in when the fault was raised.
The dispatcher `executeOption` and one iteration of the input loop of `main`
(`processLine`) are embedded the same way, with the returned boolean in the outcome.

* Go `string` is a byte sequence: `GoString := List UInt8`; `len` is `List.length`.
* Go `int` is a 64-bit two's-complement integer: values are `Int`, and every
  arithmetic result is passed through `wrapInt`.
* Slice expressions `s[lo:hi]`, index expressions `xs[i]` and string concatenation
  raise the faults the Go runtime raises.
-/

namespace TextEditor

/-! ## Go values -/

/-- Go `string`: an immutable sequence of bytes. -/
abbrev GoString := List UInt8

/-- Bytes of a string literal (UTF-8), used to write concrete inputs. -/
def bytes (s : String) : GoString := s.data.flatMap String.utf8EncodeChar

/-- Largest `int`, `2 ^ 63 - 1`. -/
def maxInt : Int := 9223372036854775807

/-- Smallest `int`, `-2 ^ 63`. -/
def minInt : Int := -9223372036854775808

/-- Result of 64-bit two's-complement `int` arithmetic on the exact result `x`:
the representative of `x` modulo `2 ^ 64` in `[-2 ^ 63, 2 ^ 63)`. -/
def wrapInt (x : Int) : Int :=
  (x + 9223372036854775808) % 18446744073709551616 - 9223372036854775808

/-- Runtime faults that abort a Go function. -/
inductive Fault where
  /-- Fault `slice bounds out of range`. -/
  | sliceBounds
  /-- Fault `index out of range`. -/
  | indexRange
  /-- Fault `string concatenation too long` (the length does not fit in `int`). -/
  | concatTooLong
deriving DecidableEq, Repr

/-- Go `s[lo:hi]` on a string: defined when `0 ≤ lo ≤ hi ≤ len(s)`. -/
def slice (s : GoString) (lo hi : Int) : Option GoString :=
  if 0 ≤ lo ∧ lo ≤ hi ∧ hi ≤ (s.length : Int) then
    some ((s.drop lo.toNat).take (hi.toNat - lo.toNat))
  else none

/-- Go `xs[i]` on a slice: defined when `0 ≤ i < len(xs)`. -/
def index {α : Type} (xs : List α) (i : Int) : Option α :=
  if 0 ≤ i ∧ i < (xs.length : Int) then xs.get? i.toNat else none

/-- Go string concatenation `a + b + ...`: the runtime aborts when the total length
overflows `int`. -/
def concat (parts : List GoString) : Option GoString :=
  if (parts.flatten.length : Int) ≤ maxInt then some parts.flatten else none

/-! ## The standard library functions the editor calls -/

/-- Outcome of the digit loop of `strconv.ParseUint(s, 10, 64)`. -/
inductive UintResult where
  | ok (n : Nat)
  | syntaxErr
  | rangeErr
deriving DecidableEq, Repr

/-- Largest `uint64`, `2 ^ 64 - 1`. -/
def maxUint64 : Nat := 18446744073709551615

/-- The digit loop of `strconv.ParseUint` in base 10: a byte that is not a decimal
digit is a syntax error; overflow of `uint64` stops the loop with a range error. -/
def parseUintLoop : GoString → Nat → UintResult
  | [], n => .ok n
  | c :: cs, n =>
    if 48 ≤ c.toNat ∧ c.toNat ≤ 57 then
      if maxUint64 / 10 + 1 ≤ n then .rangeErr
      else if maxUint64 < n * 10 + (c.toNat - 48) then .rangeErr
      else parseUintLoop cs (n * 10 + (c.toNat - 48))
    else .syntaxErr

/-- Function `strconv.ParseUint(s, 10, 64)`. -/
def parseUint (s : GoString) : UintResult :=
  if s = [] then .syntaxErr else parseUintLoop s 0

/-- Function `strconv.Atoi(s)`, value only (every caller discards the error):
`ParseInt(s, 10, 0)` converted to `int`.  A syntax error yields 0, a range error the
nearest representable value. -/
def atoi (s : GoString) : Int :=
  match s with
  | [] => 0
  | c :: rest =>
    let neg : Prop := c = 45
    let body : GoString := if c = 43 ∨ c = 45 then rest else s
    match parseUint body with
    | .syntaxErr => 0
    | r =>
      let un : Nat := match r with
        | .ok n => n
        | _ => maxUint64
      -- cutoff := uint64(1 << 63)
      if ¬neg ∧ 9223372036854775808 ≤ un then maxInt
      else if neg ∧ 9223372036854775808 < un then minInt
      else if neg then wrapInt (-(wrapInt un)) else wrapInt un

/-- Function `strings.Split(s, sep)` for a one-byte separator. -/
def split (sep : UInt8) : GoString → List GoString
  | [] => [[]]
  | c :: cs =>
    if c = sep then [] :: split sep cs
    else match split sep cs with
      | [] => [[c]]
      | p :: ps => (c :: p) :: ps

/-- Function `strings.SplitN(s, sep, 2)` for a one-byte separator: cut at the first
separator only. -/
def splitN2 (sep : UInt8) : GoString → List GoString
  | [] => [[]]
  | c :: cs =>
    if c = sep then [[], cs]
    else match splitN2 sep cs with
      | [] => [[c]]
      | p :: ps => (c :: p) :: ps

/-! ## The editor -/

/-- The Go struct `Editor`. -/
structure Editor where
  text : GoString
  selected : GoString
  start_selected : Int
  end_selected : Int
  cursor : Int
  clipboard : List GoString
deriving DecidableEq, Repr

/-- Result of running a Go function on the editor: the state it returns with, or the
fault it raised and the state at that moment. -/
inductive Outcome where
  | done (editor : Editor)
  | fault (f : Fault) (editor : Editor)
deriving DecidableEq, Repr

/-- Go function `insertText`. -/
def insertText (text : GoString) (editor : Editor) : Outcome :=
  -- if len(editor.selected) != 0 { text = text[:start] + text[end+1:]; cursor = start }
  let afterDelete : Outcome :=
    if editor.selected.length ≠ 0 then
      match slice editor.text 0 editor.start_selected,
            slice editor.text (wrapInt (editor.end_selected + 1)) editor.text.length with
      | some a, some b =>
        match concat [a, b] with
        | some t => .done { editor with text := t, cursor := editor.start_selected }
        | none => .fault .concatTooLong editor
      | _, _ => .fault .sliceBounds editor
    else .done editor
  match afterDelete with
  | .fault f e => .fault f e
  | .done e =>
    -- start := text[:cursor]; end := text[cursor:]; text = start + text + end
    match slice e.text 0 e.cursor, slice e.text e.cursor e.text.length with
    | some start, some «end» =>
      match concat [start, text, «end»] with
      | some t =>
        -- cursor += len(text)
        .done { e with text := t, cursor := wrapInt (e.cursor + text.length) }
      | none => .fault .concatTooLong e
    | _, _ => .fault .sliceBounds e

/-- Go function `selectArea`. -/
def selectArea (indices : GoString) (editor : Editor) : Outcome :=
  let indices_splitted := split 32 indices
  match index indices_splitted 0, index indices_splitted 1 with
  | some a, some b =>
    let start_index := atoi a
    let end_index := atoi b
    match slice editor.text start_index (wrapInt (end_index + 1)) with
    | some sel =>
      .done { editor with
        selected := sel
        start_selected := start_index
        end_selected := end_index
        cursor := wrapInt (end_index + 1) }
    | none => .fault .sliceBounds editor
  | _, _ => .fault .indexRange editor

/-- Go function `moveCursor`. -/
def moveCursor (offset_string : GoString) (editor : Editor) : Outcome :=
  let offset := atoi offset_string
  let c0 := wrapInt (editor.cursor + offset)
  let c1 := if c0 < 0 then 0 else c0
  let c2 := if c1 > (editor.text.length : Int) then (editor.text.length : Int) else c1
  .done { editor with cursor := c2, selected := [] }

/-- Go function `copy`. -/
def copy (editor : Editor) : Outcome :=
  if editor.selected.length ≠ 0 then
    .done { editor with clipboard := editor.clipboard ++ [editor.selected] }
  else .done editor

/-- Go function `paste`. -/
def paste (paste_command : List GoString) (editor : Editor) : Outcome :=
  let parsed : Option Int :=
    if paste_command.length ≠ 1 then (index paste_command 1).map atoi else some 1
  match parsed with
  | none => .fault .indexRange editor
  | some steps_back =>
    if steps_back ≤ (editor.clipboard.length : Int) then
      match index editor.clipboard (wrapInt (editor.clipboard.length - steps_back)) with
      | some entry => insertText entry editor
      | none => .fault .indexRange editor
    else .done editor

/-- The editor `main` starts with: `Editor{"", "", 0, 0, 0, nil}`. -/
def initial : Editor :=
  { text := [], selected := [], start_selected := 0, end_selected := 0, cursor := 0,
    clipboard := [] }

/-- One call of an editor operation, with its argument. -/
inductive Call where
  | insertText (text : GoString)
  | selectArea (indices : GoString)
  | moveCursor (offset_string : GoString)
  | copy
  | paste (paste_command : List GoString)
deriving DecidableEq, Repr

/-- Run one call on the editor. -/
def Call.run : Call → Editor → Outcome
  | .insertText text, editor => TextEditor.insertText text editor
  | .selectArea indices, editor => TextEditor.selectArea indices editor
  | .moveCursor offset_string, editor => TextEditor.moveCursor offset_string editor
  | .copy, editor => TextEditor.copy editor
  | .paste paste_command, editor => TextEditor.paste paste_command editor

/-- Run a sequence of calls in order; the first fault aborts the run. -/
def runCalls : List Call → Editor → Outcome
  | [], editor => .done editor
  | c :: cs, editor =>
    match c.run editor with
    | .done e => runCalls cs e
    | .fault f e => .fault f e

/-- Decimal digits of `n`, least significant first (`fuel` bounds the recursion). -/
def revDigits : Nat → Nat → GoString
  | 0, _ => []
  | fuel + 1, n =>
    UInt8.ofNat (48 + n % 10) :: (if n / 10 = 0 then [] else revDigits fuel (n / 10))

/-- The decimal numeral of a natural number. -/
def natDecimal (n : Nat) : GoString := (revDigits (n + 1) n).reverse

/-- The decimal numeral of an integer, the way a caller writes an `int` argument
(`strconv.Itoa`): a minus sign for negatives, then the digits. -/
def decimal (i : Int) : GoString :=
  if i < 0 then 45 :: natDecimal i.natAbs else natDecimal i.natAbs

/-- Nearest `int` to an integer. -/
def clampInt (i : Int) : Int :=
  if i < minInt then minInt else if maxInt < i then maxInt else i

/-- Value of a digit string given least significant digit first. -/
def valLE : GoString → Nat
  | [] => 0
  | d :: ds => (d.toNat - 48) + 10 * valLE ds

/-- Byte `c` is an ASCII decimal digit. -/
def isDigit (c : UInt8) : Prop := 48 ≤ c.toNat ∧ c.toNat ≤ 57

/-- The cursor is a position of the text. -/
def CursorValid (editor : Editor) : Prop :=
  0 ≤ editor.cursor ∧ editor.cursor ≤ (editor.text.length : Int)

/-- A sample session: type `Hello`, select `1..3`, copy, move two to the left, paste. -/
def sampleCalls : List Call :=
  [.insertText (bytes "Hello"), .selectArea (bytes "1 3"), .copy,
    .moveCursor (bytes "-2"), .paste [bytes "PASTE"]]

/-- The state the sample session ends in. -/
def sampleState : Editor :=
  { text := bytes "Heellllo", selected := [], start_selected := 1, end_selected := 3,
    cursor := 5, clipboard := [bytes "ell"] }

/-- The selection invariant of the specification: no selection is active, or the
bounds are ordered, inside the text, and `selected` is the text between them. -/
def SelectionValid (editor : Editor) : Prop :=
  editor.selected = [] ∨
    (editor.start_selected ≤ editor.end_selected ∧
      editor.end_selected < (editor.text.length : Int) ∧
      slice editor.text editor.start_selected (editor.end_selected + 1)
        = some editor.selected)

/-- The buffer `Hello World` with `Hello` selected (after `SELECT 0 4`) and `World` on
the clipboard. -/
def helloSelected : Editor :=
  { text := bytes "Hello World", selected := bytes "Hello", start_selected := 0,
    end_selected := 4, cursor := 5, clipboard := [bytes "World"] }

/-- The state after `TYPE Hello World`, `SELECT 0 4`, `TYPE Hi` from the initial
editor: the text is `Hi World` and `selected` is still `Hello`. -/
def staleSelection : Editor :=
  { text := bytes "Hi World", selected := bytes "Hello", start_selected := 0,
    end_selected := 4, cursor := 2, clipboard := [] }

/-- The buffer `Hello` just after it was typed into the initial editor. -/
def helloTyped : Editor :=
  { text := bytes "Hello", selected := [], start_selected := 0, end_selected := 0,
    cursor := 5, clipboard := [] }

/-- The buffer `Hello` with `Hello` selected (after `SELECT 0 4`). -/
def helloAllSelected : Editor :=
  { text := bytes "Hello", selected := bytes "Hello", start_selected := 0,
    end_selected := 4, cursor := 5, clipboard := [] }

/-- The buffer `abc` with the clipboard holding three copies made in the order
`a`, `b`, `c`. -/
def threeCopies : Editor :=
  { text := bytes "abc", selected := [], start_selected := 2, end_selected := 2,
    cursor := 3, clipboard := [bytes "a", bytes "b", bytes "c"] }

/-! ## The dispatcher and the input loop -/

/-- Result of running `executeOption`: the boolean it returns and the state, or the
fault it raised and the state at that moment. -/
inductive ExecOutcome where
  | done (ret : Bool) (editor : Editor)
  | fault (f : Fault) (editor : Editor)
deriving DecidableEq, Repr

/-- The tail of `executeOption` after an operation was run: `return false`. -/
def returnFalse : Outcome → ExecOutcome
  | .done e => .done false e
  | .fault f e => .fault f e

/-- Go function `executeOption`. -/
def executeOption (command : GoString) (editor : Editor) : ExecOutcome :=
  let command_splitted := splitN2 32 command
  match index command_splitted 0 with
  | none => .fault .indexRange editor
  | some operation =>
    if operation = bytes "TYPE" then
      match index command_splitted 1 with
      | some arg => returnFalse (insertText arg editor)
      | none => .fault .indexRange editor
    else if operation = bytes "SELECT" then
      match index command_splitted 1 with
      | some arg => returnFalse (selectArea arg editor)
      | none => .fault .indexRange editor
    else if operation = bytes "MOVE_CURSOR" then
      match index command_splitted 1 with
      | some arg => returnFalse (moveCursor arg editor)
      | none => .fault .indexRange editor
    else if operation = bytes "COPY" then returnFalse (copy editor)
    else if operation = bytes "PASTE" then returnFalse (paste command_splitted editor)
    else if operation = bytes "EXIT" then .done true editor
    else .done false editor

/-- Function `strings.Replace(input, "\r\n", "", -1)`: every carriage-return line-feed
pair is removed, scanning from the left. -/
def removeCRLF : GoString → GoString
  | [] => []
  | [c] => [c]
  | c :: d :: rest =>
    if c = 13 ∧ d = 10 then removeCRLF rest else c :: removeCRLF (d :: rest)

/-- The loop `for index, element := range input_splitted` of `main`: the elements with
an odd index are executed, and each execution assigns its result to `end`. -/
def runSegments : List GoString → Nat → Bool → Editor → ExecOutcome
  | [], _, «end», editor => .done «end» editor
  | element :: rest, index, «end», editor =>
    if index % 2 ≠ 0 then
      match executeOption element editor with
      | .done ret e => runSegments rest (index + 1) ret e
      | .fault f e => .fault f e
    else runSegments rest (index + 1) «end» editor

/-- One iteration of the input loop of `main` on the line `input` as `ReadString`
returned it, entered with the flag `end`: the result `done true` means the loop
breaks without printing, `done false` that the text is printed and the loop goes on. -/
def processLine (input : GoString) («end» : Bool) (editor : Editor) : ExecOutcome :=
  runSegments (split 34 (removeCRLF input)) 0 «end» editor

/-- The operation word of a command: the text before the first space. -/
def operationWord (command : GoString) : GoString := command.takeWhile (· ≠ 32)

/-- The quoted segments of a line: the pieces with an odd index of the split on the
quote character. -/
def quotedSegments (line : GoString) : List GoString :=
  ((split 34 line).enum.filter (fun p => p.1 % 2 = 1)).map Prod.snd

/-- Run a list of commands through `executeOption` in order, whatever each returns;
the first fault aborts the run. -/
def runCommands : List GoString → Editor → Outcome
  | [], editor => .done editor
  | command :: rest, editor =>
    match executeOption command editor with
    | .done _ e => runCommands rest e
    | .fault f e => .fault f e

/-- A segment of a line written between quote characters. -/
def quoted (command : GoString) : GoString := 34 :: command ++ [34]

/-- The second result of `strconv.Atoi(s)`, which every caller discards, is a syntax
error: `s` is empty, or `ParseUint` met a byte that is not a digit, or no digit at all,
after the optional sign. -/
def atoiSyntaxError (s : GoString) : Prop :=
  s = [] ∨
    parseUint (match s with
      | [] => []
      | c :: rest => if c = 43 ∨ c = 45 then rest else s) = .syntaxErr

/-- The editor state an outcome carries: the state returned, or the state at the
fault. -/
def Outcome.state : Outcome → Editor
  | .done e => e
  | .fault _ e => e

/-- The state after the commands `TYPE Hello`, `SELECT 0 4`, `TYPE Hi` from the initial
editor: the text is `Hi` and `selected` is still `Hello` with bounds `0..4`. -/
def staleBeyondText : Editor :=
  { text := bytes "Hi", selected := bytes "Hello", start_selected := 0,
    end_selected := 4, cursor := 2, clipboard := [] }

/-- The input line holding the two quoted commands `EXIT` and `TYPE a`, as `ReadString`
returns it (with the line feed). -/
def exitThenType : GoString :=
  quoted (bytes "EXIT") ++ [32] ++ quoted (bytes "TYPE a") ++ [10]

/-! ## The parser on decimal numerals -/

theorem parseUintLoop_snoc (ds : GoString) (c : UInt8) (n : Nat) :
    parseUintLoop (ds ++ [c]) n =
      match parseUintLoop ds n with
      | .ok m => parseUintLoop [c] m
      | r => r := by
  induction ds generalizing n with
  | nil => simp [parseUintLoop]
  | cons d ds ih =>
    rw [List.cons_append, parseUintLoop, parseUintLoop]
    split_ifs <;> simp [ih]

theorem parseUintLoop_reverse (l : GoString) (hl : ∀ c ∈ l, isDigit c) :
    parseUintLoop l.reverse 0 =
      if valLE l ≤ maxUint64 then .ok (valLE l) else .rangeErr := by
  induction l with
  | nil => simp [parseUintLoop, valLE]
  | cons d ds ih =>
    have hd : isDigit d := hl d (List.mem_cons_self _ _)
    have hds : ∀ c ∈ ds, isDigit c := fun c hc => hl c (List.mem_cons_of_mem _ hc)
    rw [List.reverse_cons, parseUintLoop_snoc, ih hds]
    unfold isDigit at hd
    by_cases hv : valLE ds ≤ maxUint64
    · simp only [hv, if_true, parseUintLoop, valLE, hd, and_self]
      unfold maxUint64 at *
      split_ifs <;> first | rfl | (exfalso; omega) | (congr 1; omega)
    · simp only [hv, if_false, valLE]
      unfold maxUint64 at *
      split_ifs <;> first | rfl | (exfalso; omega)

theorem toNat_digitByte (n : Nat) : (UInt8.ofNat (48 + n % 10)).toNat = 48 + n % 10 := by
  have h : (UInt8.ofNat (48 + n % 10)).toNat = (48 + n % 10) % 256 := rfl
  rw [h]
  omega

theorem revDigits_isDigit (fuel n : Nat) : ∀ c ∈ revDigits fuel n, isDigit c := by
  induction fuel generalizing n with
  | zero => simp [revDigits]
  | succ fuel ih =>
    intro c hc
    rw [revDigits, List.mem_cons] at hc
    rcases hc with rfl | hc
    · unfold isDigit
      rw [toNat_digitByte]
      omega
    · split_ifs at hc
      · simp at hc
      · exact ih _ c hc

theorem valLE_revDigits (fuel n : Nat) (h : n < fuel) : valLE (revDigits fuel n) = n := by
  induction fuel generalizing n with
  | zero => omega
  | succ fuel ih =>
    rw [revDigits, valLE, toNat_digitByte]
    split_ifs with h0
    · simp only [valLE]
      omega
    · rw [ih (n / 10) (by omega)]
      omega

theorem natDecimal_isDigit (n : Nat) : ∀ c ∈ natDecimal n, isDigit c := by
  intro c hc
  unfold natDecimal at hc
  exact revDigits_isDigit _ _ c (List.mem_reverse.mp hc)

theorem natDecimal_ne_nil (n : Nat) : natDecimal n ≠ [] := by
  unfold natDecimal
  rw [revDigits]
  simp

theorem parseUint_natDecimal (n : Nat) :
    parseUint (natDecimal n) = if n ≤ maxUint64 then .ok n else .rangeErr := by
  unfold parseUint
  rw [if_neg (natDecimal_ne_nil n)]
  unfold natDecimal
  rw [parseUintLoop_reverse _ (revDigits_isDigit _ _), valLE_revDigits _ _ (by omega)]

theorem isDigit_ne_sign (c : UInt8) (h : isDigit c) : c ≠ 43 ∧ c ≠ 45 ∧ c ≠ 32 := by
  unfold isDigit at h
  refine ⟨?_, ?_, ?_⟩ <;> rintro rfl <;> revert h <;> decide

/-- Parsing a decimal numeral returns the nearest `int`. -/
theorem atoi_decimal (i : Int) : atoi (decimal i) = clampInt i := by
  unfold decimal
  by_cases hi : i < 0
  · rw [if_pos hi]
    simp only [atoi, or_true, if_true]
    rw [parseUint_natDecimal]
    have hn : (i.natAbs : Int) = -i := by
      rw [← Int.natAbs_neg]
      exact Int.natAbs_of_nonneg (by omega)
    generalize i.natAbs = n at hn ⊢
    unfold maxUint64 clampInt wrapInt maxInt minInt
    by_cases hm : n ≤ 18446744073709551615
    · rw [if_pos hm]
      simp only [not_true_eq_false, false_and, true_and, if_true, if_false]
      split_ifs <;> omega
    · rw [if_neg hm]
      simp only [not_true_eq_false, false_and, true_and, if_true, if_false]
      split_ifs <;> omega
  · rw [if_neg hi]
    obtain ⟨c, rest, hcr⟩ := List.exists_cons_of_ne_nil (natDecimal_ne_nil i.natAbs)
    have hc : isDigit c := natDecimal_isDigit i.natAbs c (by rw [hcr]; simp)
    obtain ⟨h43, h45, -⟩ := isDigit_ne_sign c hc
    have hp := parseUint_natDecimal i.natAbs
    rw [hcr] at hp ⊢
    simp only [atoi]
    rw [if_neg (by simp [h43, h45]), hp]
    have hn : (i.natAbs : Int) = i := Int.natAbs_of_nonneg (by omega)
    generalize i.natAbs = n at hn ⊢
    unfold maxUint64 clampInt wrapInt maxInt minInt
    by_cases hm : n ≤ 18446744073709551615
    · rw [if_pos hm]
      simp only [h45, not_false_eq_true, false_and, true_and, if_true, if_false]
      split_ifs <;> omega
    · rw [if_neg hm]
      simp only [h45, not_false_eq_true, false_and, true_and, if_true, if_false]
      split_ifs <;> omega

/-! ## Slices and concatenation -/

theorem slice_eq_some {s r : GoString} {lo hi : Int} (h : slice s lo hi = some r) :
    0 ≤ lo ∧ lo ≤ hi ∧ hi ≤ (s.length : Int) ∧
      r = (s.drop lo.toNat).take (hi.toNat - lo.toNat) ∧ (r.length : Int) = hi - lo := by
  unfold slice at h
  split_ifs at h with hc
  obtain ⟨h0, h1, h2⟩ := hc
  have hr : r = (s.drop lo.toNat).take (hi.toNat - lo.toNat) := (Option.some.inj h).symm
  refine ⟨h0, h1, h2, hr, ?_⟩
  rw [hr, List.length_take, List.length_drop]
  omega

theorem slice_of_bounds (s : GoString) (lo hi : Int) (h0 : 0 ≤ lo) (h1 : lo ≤ hi)
    (h2 : hi ≤ (s.length : Int)) :
    slice s lo hi = some ((s.drop lo.toNat).take (hi.toNat - lo.toNat)) := by
  unfold slice
  rw [if_pos ⟨h0, h1, h2⟩]

theorem concat_eq_some {parts : List GoString} {t : GoString} (h : concat parts = some t) :
    t = parts.flatten ∧ (t.length : Int) < 2 ^ 63 := by
  unfold concat maxInt at h
  split_ifs at h with hc
  have ht : t = parts.flatten := (Option.some.inj h).symm
  subst ht
  exact ⟨rfl, by omega⟩

/-! ## The cursor after each operation -/

theorem insertText_cursorValid {text : GoString} {editor editor' : Editor}
    (h : insertText text editor = .done editor') : CursorValid editor' := by
  unfold insertText at h
  simp only at h
  split at h
  · exact absurd h (by simp)
  · rename_i e _
    split at h
    · rename_i start fin hs he
      split at h
      · rename_i t ht
        obtain ⟨h0, h1, _, _, hlen⟩ := slice_eq_some hs
        obtain ⟨_, _, _, _, hlen'⟩ := slice_eq_some he
        obtain ⟨htt, htl⟩ := concat_eq_some ht
        have hl : (t.length : Int) = start.length + text.length + fin.length := by
          rw [htt]
          simp [List.length_flatten]
          omega
        injection h with h
        subst h
        unfold CursorValid wrapInt
        simp only
        omega
      · exact absurd h (by simp)
    · exact absurd h (by simp)

theorem selectArea_cursorValid {indices : GoString} {editor editor' : Editor}
    (h : selectArea indices editor = .done editor') : CursorValid editor' := by
  unfold selectArea at h
  simp only at h
  split at h
  · split at h
    · rename_i sel hs
      obtain ⟨h0, h1, h2, _, _⟩ := slice_eq_some hs
      injection h with h
      subst h
      unfold CursorValid
      simp only
      omega
    · exact absurd h (by simp)
  · exact absurd h (by simp)

theorem moveCursor_cursorValid {offset_string : GoString} {editor editor' : Editor}
    (h : moveCursor offset_string editor = .done editor') : CursorValid editor' := by
  unfold moveCursor at h
  simp only at h
  injection h with h
  subst h
  unfold CursorValid
  simp only
  split_ifs <;> omega

theorem copy_cursorValid {editor editor' : Editor} (hv : CursorValid editor)
    (h : copy editor = .done editor') : CursorValid editor' := by
  unfold copy at h
  split_ifs at h <;> injection h with h <;> subst h <;> exact hv

theorem paste_cursorValid {paste_command : List GoString} {editor editor' : Editor}
    (hv : CursorValid editor) (h : paste paste_command editor = .done editor') :
    CursorValid editor' := by
  unfold paste at h
  simp only at h
  split at h
  · exact absurd h (by simp)
  · split_ifs at h
    · split at h
      · exact insertText_cursorValid h
      · exact absurd h (by simp)
    · injection h with h
      subst h
      exact hv

theorem run_cursorValid {c : Call} {editor editor' : Editor} (hv : CursorValid editor)
    (h : c.run editor = .done editor') : CursorValid editor' := by
  cases c with
  | insertText text => exact insertText_cursorValid h
  | selectArea indices => exact selectArea_cursorValid h
  | moveCursor offset_string => exact moveCursor_cursorValid h
  | copy => exact copy_cursorValid hv h
  | paste paste_command => exact paste_cursorValid hv h

theorem runCalls_cursorValid (calls : List Call) {editor editor' : Editor}
    (hv : CursorValid editor) (h : runCalls calls editor = .done editor') :
    CursorValid editor' := by
  induction calls generalizing editor with
  | nil =>
    unfold runCalls at h
    injection h with h
    subst h
    exact hv
  | cons c cs ih =>
    unfold runCalls at h
    split at h
    · rename_i e hc
      exact ih (run_cursorValid hv hc) h
    · exact absurd h (by simp)

/-! ## C1: the cursor invariant -/

/-- Claim C1. In every state reached from the initial editor by a finite sequence of
`insertText`, `selectArea`, `moveCursor`, `copy` and `paste` calls that each return
without a fault, the cursor satisfies `0 ≤ cursor ≤ len(text)`. -/
theorem cursor_invariant (calls : List Call) (editor : Editor)
    (h : runCalls calls initial = .done editor) :
    0 ≤ editor.cursor ∧ editor.cursor ≤ (editor.text.length : Int) :=
  runCalls_cursorValid calls (by unfold CursorValid initial; simp) h

/-- Witness for C1: type `Hello`, select `1..3`, copy, move two to the left, paste. -/
theorem cursor_invariant_witness :
    runCalls sampleCalls initial = .done sampleState ∧
      0 ≤ sampleState.cursor ∧ sampleState.cursor ≤ (sampleState.text.length : Int) :=
  ⟨by decide, cursor_invariant sampleCalls sampleState (by decide)⟩

theorem wrapInt_of_range {x : Int} (h0 : -(2 ^ 63) ≤ x) (h1 : x < 2 ^ 63) : wrapInt x = x := by
  unfold wrapInt
  omega

theorem slice_upto (s : GoString) (c : Int) (h0 : 0 ≤ c) (h1 : c ≤ (s.length : Int)) :
    slice s 0 c = some (s.take c.toNat) := by
  rw [slice_of_bounds s 0 c (le_refl 0) h0 h1]
  simp

theorem slice_from (s : GoString) (c : Int) (h0 : 0 ≤ c) (h1 : c ≤ (s.length : Int)) :
    slice s c (s.length : Int) = some (s.drop c.toNat) := by
  rw [slice_of_bounds s c _ h0 h1 (le_refl _)]
  congr 1
  apply List.take_of_length_le
  rw [List.length_drop]
  omega

theorem concat_of_fits (parts : List GoString) (h : parts.flatten.length < 2 ^ 63) :
    concat parts = some parts.flatten := by
  unfold concat maxInt
  rw [if_pos (by omega)]

/-- Insertion when no selection is active: splice at the cursor. -/
theorem insertText_noSelection (newText : GoString) (editor : Editor)
    (hsel : editor.selected = [])
    (h0 : 0 ≤ editor.cursor) (h1 : editor.cursor ≤ (editor.text.length : Int))
    (hlen : editor.text.length + newText.length < 2 ^ 63) :
    insertText newText editor = .done { editor with
      text := editor.text.take editor.cursor.toNat ++ newText
        ++ editor.text.drop editor.cursor.toNat
      cursor := editor.cursor + newText.length } := by
  unfold insertText
  simp only [hsel, List.length_nil, ne_eq, not_true_eq_false, if_false]
  rw [slice_upto _ _ h0 h1, slice_from _ _ h0 h1]
  simp only
  rw [concat_of_fits]
  · simp only
    rw [wrapInt_of_range (by omega) (by omega)]
    simp
  · simp only [List.flatten, List.length_append, List.length_take, List.length_drop,
      List.append_nil]
    omega

/-- Insertion when a selection with valid bounds is active: the selected range is
replaced. -/
theorem insertText_selection (newText : GoString) (editor : Editor)
    (hsel : editor.selected ≠ [])
    (h0 : 0 ≤ editor.start_selected) (h1 : editor.start_selected ≤ editor.end_selected)
    (h2 : editor.end_selected < (editor.text.length : Int))
    (hlen : editor.text.length + newText.length < 2 ^ 63) :
    insertText newText editor = .done { editor with
      text := editor.text.take editor.start_selected.toNat ++ newText
        ++ editor.text.drop (editor.end_selected + 1).toNat
      cursor := editor.start_selected + newText.length } := by
  have hne : editor.selected.length ≠ 0 := by
    intro h
    exact hsel (List.length_eq_zero.mp h)
  have hw : wrapInt (editor.end_selected + 1) = editor.end_selected + 1 :=
    wrapInt_of_range (by omega) (by omega)
  have hla : (editor.text.take editor.start_selected.toNat).length
      = editor.start_selected.toNat := by
    rw [List.length_take]
    omega
  unfold insertText
  simp only [hne, ne_eq, not_false_eq_true, if_true, hw]
  rw [slice_upto _ _ h0 (by omega), slice_from _ _ (by omega) (by omega)]
  simp only
  rw [concat_of_fits]
  · simp only [List.flatten, List.append_nil]
    rw [slice_upto _ _ h0 (by rw [List.length_append, hla]; omega),
      slice_from _ _ h0 (by rw [List.length_append, hla]; omega)]
    simp only
    rw [concat_of_fits]
    · simp only [List.flatten, List.append_nil]
      rw [wrapInt_of_range (by omega) (by omega)]
      rw [List.take_left' hla, List.drop_left' hla]
      simp
    · simp only [List.flatten, List.append_nil, List.length_append, List.length_take,
        List.length_drop]
      omega
  · simp only [List.flatten, List.append_nil, List.length_append, List.length_take,
      List.length_drop]
    omega

/-! ## C2: the selection invariant -/

/-- Claim C2 fails on the code. After `TYPE Hello World`, `SELECT 0 4`, `TYPE Hi` all
three calls return, the text is `Hi World`, and `selected` is still `Hello` with bounds
`0..4`: the selection is active but is not the text between its bounds. -/
theorem selection_invariant_broken_by_insert :
    runCalls [.insertText (bytes "Hello World"), .selectArea (bytes "0 4"),
        .insertText (bytes "Hi")] initial
      = .done staleSelection ∧
    ¬ SelectionValid staleSelection := by
  refine ⟨by decide, ?_⟩
  unfold SelectionValid
  decide

/-! ## C3: what an insertion does -/

/-- Claim C3. With a valid cursor, valid bounds on any active selection, and a result
that fits a Go string, `insertText newText` returns with
`text = text[0:p] + newText + text[q:]` and `cursor = p + len(newText)`, where
`(p, q)` is `(start_selected, end_selected + 1)` when a selection is active and
`(cursor, cursor)` otherwise; every other field, the clipboard included, is unchanged. -/
theorem insertText_postcondition (newText : GoString) (editor : Editor)
    (hc0 : 0 ≤ editor.cursor) (hc1 : editor.cursor ≤ (editor.text.length : Int))
    (hs : editor.selected ≠ [] →
      0 ≤ editor.start_selected ∧ editor.start_selected ≤ editor.end_selected ∧
        editor.end_selected < (editor.text.length : Int))
    (hlen : editor.text.length + newText.length < 2 ^ 63) :
    insertText newText editor = .done { editor with
      text :=
        editor.text.take
            (if editor.selected ≠ [] then editor.start_selected else editor.cursor).toNat
          ++ newText
          ++ editor.text.drop
            (if editor.selected ≠ [] then editor.end_selected + 1 else editor.cursor).toNat
      cursor :=
        (if editor.selected ≠ [] then editor.start_selected else editor.cursor)
          + newText.length } := by
  by_cases hsel : editor.selected = []
  · simp only [if_neg (not_not.mpr hsel)]
    exact insertText_noSelection newText editor hsel hc0 hc1 hlen
  · obtain ⟨h0, h1, h2⟩ := hs hsel
    simp only [if_pos hsel]
    exact insertText_selection newText editor hsel h0 h1 h2 hlen

/-- Witness for C3: on `Hello World` with `0..4` selected, `TYPE Hi` gives `Hi World`
with the cursor at 2 and the clipboard untouched. -/
theorem insertText_postcondition_witness :
    (helloSelected.text.length + (bytes "Hi").length < 2 ^ 63) ∧
    insertText (bytes "Hi") helloSelected
      = .done { helloSelected with text := bytes "Hi World", cursor := 2 } :=
  ⟨by decide,
   insertText_postcondition (bytes "Hi") helloSelected (by decide) (by decide)
     (by decide) (by decide)⟩

/-! ## C4: the selection after an insertion -/

/-- Claim C4 fails on the code. `insertText` never assigns `selected`: on `Hello World`
with `Hello` selected, `TYPE Hi` returns with `selected` still `Hello`. -/
theorem insertText_keeps_selection :
    insertText (bytes "Hi") helloSelected
      = .done { helloSelected with text := bytes "Hi World", cursor := 2 } ∧
    ({ helloSelected with text := bytes "Hi World", cursor := 2 } : Editor).selected
      = bytes "Hello" ∧
    bytes "Hello" ≠ [] := by
  decide

/-! ## Splitting an argument made of decimal numerals -/

theorem split_of_not_mem (sep : UInt8) (b : GoString) (h : sep ∉ b) : split sep b = [b] := by
  induction b with
  | nil => rfl
  | cons c cs ih =>
    have hc : c ≠ sep := fun hc => h (hc ▸ List.mem_cons_self _ _)
    have hcs : sep ∉ cs := fun hm => h (List.mem_cons_of_mem _ hm)
    rw [split, if_neg hc, ih hcs]

theorem split_append_sep (sep : UInt8) (a rest : GoString) (h : sep ∉ a) :
    split sep (a ++ sep :: rest) = a :: split sep rest := by
  induction a with
  | nil =>
    rw [List.nil_append, split, if_pos rfl]
  | cons c cs ih =>
    have hc : c ≠ sep := fun hc => h (hc ▸ List.mem_cons_self _ _)
    have hcs : sep ∉ cs := fun hm => h (List.mem_cons_of_mem _ hm)
    rw [List.cons_append, split, if_neg hc, ih hcs]

theorem space_not_mem_decimal (i : Int) : (32 : UInt8) ∉ decimal i := by
  have hn : ∀ n : Nat, (32 : UInt8) ∉ natDecimal n := by
    intro n hm
    exact (isDigit_ne_sign 32 (natDecimal_isDigit n 32 hm)).2.2 rfl
  unfold decimal
  split_ifs
  · intro hm
    rcases List.mem_cons.mp hm with h | h
    · exact absurd h (by decide)
    · exact hn _ h
  · exact hn _

theorem split_decimal_pair (s e : Int) :
    split 32 (decimal s ++ [32] ++ decimal e) = [decimal s, decimal e] := by
  rw [List.append_assoc, List.singleton_append,
    split_append_sep 32 _ _ (space_not_mem_decimal s),
    split_of_not_mem 32 _ (space_not_mem_decimal e)]

/-- Selecting with the argument `s e` written in decimal: the slice expression
`text[s : e+1]` on the parsed values decides the outcome. -/
theorem selectArea_decimal (s e : Int) (editor : Editor) :
    selectArea (decimal s ++ [32] ++ decimal e) editor =
      match slice editor.text (clampInt s) (wrapInt (clampInt e + 1)) with
      | some sel =>
        .done { editor with
          selected := sel
          start_selected := clampInt s
          end_selected := clampInt e
          cursor := wrapInt (clampInt e + 1) }
      | none => .fault .sliceBounds editor := by
  have h0 : index [decimal s, decimal e] 0 = some (decimal s) := by simp [index]
  have h1 : index [decimal s, decimal e] 1 = some (decimal e) := by simp [index]
  unfold selectArea
  simp only [split_decimal_pair, h0, h1, atoi_decimal]

theorem slice_none_of_bounds (s : GoString) (lo hi : Int)
    (h : lo < 0 ∨ hi < lo ∨ (s.length : Int) < hi) : slice s lo hi = none := by
  unfold slice
  rw [if_neg]
  omega

/-! ## C5: selecting a range inside the text -/

/-- Claim C5. For `0 ≤ s ≤ e < len(text)`, `selectArea` with the argument `s e` sets
`selected = text[s..e]` (of length `e - s + 1`), `start_selected = s`,
`end_selected = e`, `cursor = e + 1`, and leaves `text` and `clipboard` unchanged. -/
theorem selectArea_postcondition (s e : Int) (editor : Editor)
    (h0 : 0 ≤ s) (h1 : s ≤ e) (h2 : e < (editor.text.length : Int))
    (hfit : editor.text.length < 2 ^ 63) :
    selectArea (decimal s ++ [32] ++ decimal e) editor = .done { editor with
        selected := (editor.text.drop s.toNat).take (e.toNat - s.toNat + 1)
        start_selected := s
        end_selected := e
        cursor := e + 1 } ∧
      (((editor.text.drop s.toNat).take (e.toNat - s.toNat + 1)).length : Int)
        = e - s + 1 := by
  have hs : clampInt s = s := by unfold clampInt minInt maxInt; split_ifs <;> omega
  have he : clampInt e = e := by unfold clampInt minInt maxInt; split_ifs <;> omega
  have hw : wrapInt (e + 1) = e + 1 := wrapInt_of_range (by omega) (by omega)
  have hn : (e + 1).toNat - s.toNat = e.toNat - s.toNat + 1 := by omega
  constructor
  · rw [selectArea_decimal, hs, he, hw,
      slice_of_bounds editor.text s (e + 1) h0 (by omega) (by omega), hn]
  · rw [List.length_take, List.length_drop]
    omega

/-- Witness for C5: on `Hello`, `SELECT 0 4` selects `Hello` with bounds `0..4` and
moves the cursor to 5. -/
theorem selectArea_postcondition_witness :
    decimal 0 ++ [32] ++ decimal 4 = bytes "0 4" ∧
    selectArea (decimal 0 ++ [32] ++ decimal 4) helloTyped
      = .done { helloTyped with
          selected := bytes "Hello", start_selected := 0, end_selected := 4, cursor := 5 } :=
  ⟨by decide,
   (selectArea_postcondition 0 4 helloTyped (by decide) (by decide) (by decide)
     (by decide)).1⟩

/-! ## C6: selecting with indices outside the text -/

/-- Claim C6 fails as stated. On `Hello` the argument `1 0` has `s > e`, yet
`selectArea` returns normally: it stores an empty selection with bounds `1..0` and moves
the cursor from 5 to 1. -/
theorem selectArea_empty_range_succeeds :
    (0 : Int) < 1 ∧
    selectArea (bytes "1 0") helloTyped
      = .done { helloTyped with
          selected := [], start_selected := 1, end_selected := 0, cursor := 1 } ∧
    ({ helloTyped with
        selected := [], start_selected := 1, end_selected := 0, cursor := 1 } : Editor)
      ≠ helloTyped := by
  decide

/-- Claim C6, amended. When `s` or `e` lies outside `[0, len(text))` or `s > e`, and
the pair is not an empty range `s = e + 1` with `0 ≤ s ≤ len(text)`, `selectArea` with
the argument `s e` stops with the slice-bounds fault before any field is assigned: the
state at the fault is the state it was called on. -/
theorem selectArea_out_of_range (s e : Int) (editor : Editor)
    (hfit : editor.text.length + 1 < 2 ^ 63)
    (hout : s < 0 ∨ (editor.text.length : Int) ≤ s ∨ e < 0 ∨
      (editor.text.length : Int) ≤ e ∨ e < s)
    (hne : ¬ (s = e + 1 ∧ 0 ≤ s ∧ s ≤ (editor.text.length : Int))) :
    selectArea (decimal s ++ [32] ++ decimal e) editor = .fault .sliceBounds editor := by
  rw [selectArea_decimal, slice_none_of_bounds]
  unfold clampInt wrapInt minInt maxInt
  split_ifs <;> omega

/-- Witness for the amended C6: on `Hello`, `SELECT 3 9` faults and changes nothing. -/
theorem selectArea_out_of_range_witness :
    decimal 3 ++ [32] ++ decimal 9 = bytes "3 9" ∧
    selectArea (decimal 3 ++ [32] ++ decimal 9) helloTyped
      = .fault .sliceBounds helloTyped :=
  ⟨by decide,
   selectArea_out_of_range 3 9 helloTyped (by decide) (by decide) (by decide)⟩

/-! ## C7: moving the cursor -/

/-- Moving by a decimal offset: the parsed offset is the nearest `int`. -/
theorem moveCursor_decimal (offset : Int) (editor : Editor) :
    moveCursor (decimal offset) editor = .done { editor with
      cursor :=
        if (if wrapInt (editor.cursor + clampInt offset) < 0 then 0
            else wrapInt (editor.cursor + clampInt offset)) > (editor.text.length : Int)
        then (editor.text.length : Int)
        else (if wrapInt (editor.cursor + clampInt offset) < 0 then 0
          else wrapInt (editor.cursor + clampInt offset))
      selected := [] } := by
  unfold moveCursor
  simp only [atoi_decimal]

/-- Claim C7. With a valid cursor and an offset for which `cursor + offset` does not
overflow `int`, `moveCursor` sets `cursor = clamp(cursor + offset, 0, len(text))`,
empties `selected`, and leaves `text` and `clipboard` unchanged; with offset 0 only
`selected` changes. -/
theorem moveCursor_postcondition (offset : Int) (editor : Editor)
    (hc0 : 0 ≤ editor.cursor) (hc1 : editor.cursor ≤ (editor.text.length : Int))
    (hfit : editor.text.length < 2 ^ 63)
    (hlo : -(2 ^ 63) ≤ editor.cursor + offset) (hhi : editor.cursor + offset < 2 ^ 63) :
    moveCursor (decimal offset) editor = .done { editor with
        cursor := max 0 (min (editor.cursor + offset) (editor.text.length : Int))
        selected := [] } ∧
      moveCursor (decimal 0) editor = .done { editor with selected := [] } := by
  constructor
  · rw [moveCursor_decimal]
    congr 2
    unfold clampInt wrapInt minInt maxInt
    split_ifs <;> omega
  · rw [moveCursor_decimal]
    have h : (if (if wrapInt (editor.cursor + clampInt 0) < 0 then 0
            else wrapInt (editor.cursor + clampInt 0)) > (editor.text.length : Int)
        then (editor.text.length : Int)
        else (if wrapInt (editor.cursor + clampInt 0) < 0 then 0
          else wrapInt (editor.cursor + clampInt 0))) = editor.cursor := by
      unfold clampInt wrapInt minInt maxInt
      split_ifs <;> omega
    rw [h]

/-- Witness for C7: on `Hello` with everything selected and the cursor at 5,
`MOVE_CURSOR -2` puts the cursor at 3 and empties `selected`. -/
theorem moveCursor_postcondition_witness :
    decimal (-2) = bytes "-2" ∧
    moveCursor (decimal (-2)) helloAllSelected
      = .done { helloAllSelected with cursor := 3, selected := [] } ∧
    moveCursor (decimal 0) helloAllSelected
      = .done { helloAllSelected with selected := [] } :=
  ⟨by decide,
   moveCursor_postcondition (-2) helloAllSelected (by decide) (by decide) (by decide)
     (by decide) (by decide)⟩

/-! ## C8: copying -/

/-- Claim C8. `copy` appends `selected` to the end of the clipboard when `selected` is
non-empty and changes nothing otherwise; `text`, `cursor`, `selected` and both bounds
are never changed. -/
theorem copy_postcondition (editor : Editor) :
    copy editor = .done
      (if editor.selected ≠ [] then
        { editor with clipboard := editor.clipboard ++ [editor.selected] }
      else editor) := by
  unfold copy
  by_cases h : editor.selected = []
  · rw [if_neg (by simp [h]), if_neg (by simp [h])]
  · rw [if_pos (by simpa using h), if_pos h]

/-! ## C9 and C10: pasting -/

/-- Pasting with a decimal argument: the guard and the clipboard index are computed
from the nearest `int`. -/
theorem paste_decimal (op : GoString) (k : Int) (editor : Editor) :
    paste [op, decimal k] editor =
      if clampInt k ≤ (editor.clipboard.length : Int) then
        match index editor.clipboard
          (wrapInt ((editor.clipboard.length : Int) - clampInt k)) with
        | some entry => insertText entry editor
        | none => .fault .indexRange editor
      else .done editor := by
  have h1 : index [op, decimal k] 1 = some (decimal k) := by simp [index]
  unfold paste
  simp only [List.length_cons, List.length_nil, h1, Option.map_some', atoi_decimal]
  rfl

theorem paste_default (op : GoString) (editor : Editor) :
    paste [op] editor =
      if (1 : Int) ≤ (editor.clipboard.length : Int) then
        match index editor.clipboard (wrapInt ((editor.clipboard.length : Int) - 1)) with
        | some entry => insertText entry editor
        | none => .fault .indexRange editor
      else .done editor := by
  unfold paste
  simp only [List.length_cons, List.length_nil]
  rfl

/-- Claim C9. For `1 ≤ k ≤ len(clipboard)`, `paste` with `stepsBack = k` does exactly
what `insertText(clipboard[len(clipboard) - k])` does, so with the clipboard holding the
copies in the order they were made it inserts the `k`-th most recent one; `PASTE`
without an argument behaves as `stepsBack = 1`. -/
theorem paste_recency (op : GoString) (k : Int) (editor : Editor)
    (h1 : 1 ≤ k) (h2 : k ≤ (editor.clipboard.length : Int))
    (hfit : editor.clipboard.length < 2 ^ 63) :
    (∃ entry, editor.clipboard.get? (editor.clipboard.length - k.toNat) = some entry ∧
        paste [op, decimal k] editor = insertText entry editor) ∧
      paste [op] editor = paste [op, decimal 1] editor := by
  constructor
  · have hk : clampInt k = k := by unfold clampInt minInt maxInt; split_ifs <;> omega
    have hw : wrapInt ((editor.clipboard.length : Int) - k)
        = (editor.clipboard.length : Int) - k := wrapInt_of_range (by omega) (by omega)
    have hi : ((editor.clipboard.length : Int) - k).toNat
        = editor.clipboard.length - k.toNat := by omega
    have hlt : editor.clipboard.length - k.toNat < editor.clipboard.length := by omega
    refine ⟨editor.clipboard.get ⟨_, hlt⟩, List.get?_eq_get hlt, ?_⟩
    rw [paste_decimal, hk, if_pos h2, hw]
    unfold index
    rw [if_pos (by omega), hi, List.get?_eq_get hlt]
  · rw [paste_decimal, paste_default]
    rfl

/-- Witness for C9: with the copies `a`, `b`, `c` on the clipboard, `PASTE 2` inserts
`b`, the second most recent. -/
theorem paste_recency_witness :
    decimal 2 = bytes "2" ∧
    insertText (bytes "b") threeCopies
      = .done { threeCopies with text := bytes "abcb", cursor := 4 } ∧
    ((∃ entry, threeCopies.clipboard.get? (threeCopies.clipboard.length - (2 : Int).toNat)
          = some entry ∧
        paste [bytes "PASTE", decimal 2] threeCopies = insertText entry threeCopies) ∧
      paste [bytes "PASTE"] threeCopies = paste [bytes "PASTE", decimal 1] threeCopies) :=
  ⟨by decide, by decide,
   paste_recency (bytes "PASTE") 2 threeCopies (by decide) (by decide) (by decide)⟩

/-- Claim C10. For `stepsBack > len(clipboard)`, `paste` returns without a fault and
leaves every field of the editor unchanged. -/
theorem paste_beyond_clipboard (op : GoString) (k : Int) (editor : Editor)
    (hk : (editor.clipboard.length : Int) < k)
    (hfit : editor.clipboard.length + 1 < 2 ^ 63) :
    paste [op, decimal k] editor = .done editor := by
  rw [paste_decimal, if_neg]
  unfold clampInt minInt maxInt
  split_ifs <;> omega

/-- Witness for C10: with the single clipboard entry `World`, `PASTE 2` changes
nothing. -/
theorem paste_beyond_clipboard_witness :
    decimal 2 = bytes "2" ∧ helloSelected.clipboard = [bytes "World"] ∧
    paste [bytes "PASTE", decimal 2] helloSelected = .done helloSelected :=
  ⟨by decide, by decide,
   paste_beyond_clipboard (bytes "PASTE") 2 helloSelected (by decide) (by decide)⟩

/-! ## What an insertion never touches -/

/-- Function `insertText` assigns only `text` and `cursor`: in the state it returns,
and in the state at a fault, `selected`, both bounds and the clipboard are as
before. -/
theorem insertText_frame (text : GoString) (editor : Editor) :
    (insertText text editor).state.selected = editor.selected ∧
      (insertText text editor).state.start_selected = editor.start_selected ∧
      (insertText text editor).state.end_selected = editor.end_selected ∧
      (insertText text editor).state.clipboard = editor.clipboard := by
  unfold insertText
  simp only
  split
  next f e heq =>
    split at heq
    · split at heq
      · split at heq <;> simp_all [Outcome.state]
      · simp_all [Outcome.state]
    · simp_all
  next e heq =>
    have he : e.selected = editor.selected ∧ e.start_selected = editor.start_selected ∧
        e.end_selected = editor.end_selected ∧ e.clipboard = editor.clipboard := by
      split at heq
      · split at heq
        · split at heq
          · injection heq with heq
            subst heq
            simp
          · simp_all
        · simp_all
      · simp_all
    repeat' split
    all_goals simpa [Outcome.state] using he

/-- Insertion over an active selection with valid bounds, when the resulting text fits a
Go string: the selected range is replaced and the other fields are kept. -/
theorem insertText_replace (newText : GoString) (editor : Editor)
    (hsel : editor.selected ≠ [])
    (h0 : 0 ≤ editor.start_selected) (h1 : editor.start_selected ≤ editor.end_selected)
    (h2 : editor.end_selected < (editor.text.length : Int))
    (hfit : editor.text.length < 2 ^ 63)
    (hlen : (editor.text.length : Int) - (editor.end_selected - editor.start_selected + 1)
      + newText.length < 2 ^ 63) :
    insertText newText editor = .done { editor with
      text := editor.text.take editor.start_selected.toNat ++ newText
        ++ editor.text.drop (editor.end_selected + 1).toNat
      cursor := editor.start_selected + newText.length } := by
  have hne : editor.selected.length ≠ 0 := by
    intro h
    exact hsel (List.length_eq_zero.mp h)
  have hw : wrapInt (editor.end_selected + 1) = editor.end_selected + 1 :=
    wrapInt_of_range (by omega) (by omega)
  have hla : (editor.text.take editor.start_selected.toNat).length
      = editor.start_selected.toNat := by
    rw [List.length_take]
    omega
  unfold insertText
  simp only [hne, ne_eq, not_false_eq_true, if_true, hw]
  rw [slice_upto _ _ h0 (by omega), slice_from _ _ (by omega) (by omega)]
  simp only
  rw [concat_of_fits]
  · simp only [List.flatten, List.append_nil]
    rw [slice_upto _ _ h0 (by rw [List.length_append, hla]; omega),
      slice_from _ _ h0 (by rw [List.length_append, hla]; omega)]
    simp only
    rw [concat_of_fits]
    · simp only [List.flatten, List.append_nil]
      rw [wrapInt_of_range (by omega) (by omega)]
      rw [List.take_left' hla, List.drop_left' hla]
      simp
    · simp only [List.flatten, List.append_nil, List.length_append, List.length_take,
        List.length_drop]
      omega
  · simp only [List.flatten, List.append_nil, List.length_append, List.length_take,
      List.length_drop]
    omega

/-! ## C11: select, copy, paste -/

/-- Claim C11 fails as stated. On `Hello`, `SELECT 0 4`, `COPY`, `PASTE 1` all return
and the text is `Hello` again, not `HelloHello`: the paste replaces the selection, which
is still active, by its own copy. -/
theorem select_copy_paste_keeps_text :
    runCalls [.selectArea (bytes "0 4"), .copy, .paste [bytes "PASTE", bytes "1"]]
        helloTyped
      = .done { helloAllSelected with clipboard := [bytes "Hello"] } ∧
    helloAllSelected.text = bytes "Hello" ∧
    helloTyped.text.take 5 ++ (helloTyped.text.drop 0).take 5 ++ helloTyped.text.drop 5
      = bytes "HelloHello" ∧
    bytes "Hello" ≠ bytes "HelloHello" := by
  decide

/-- Claim C11, amended. For `0 ≤ a ≤ b < len(text)`, `selectArea` with `a b`, then
`copy`, then `paste` with `stepsBack = 1` all return; the paste replaces the range
`text[a..b]`, still selected, by the copy of it, so the text is the text before the
three calls, the cursor is `b + 1`, `selected` is `text[a..b]` with bounds `a..b`, and
the clipboard has `text[a..b]` appended. -/
theorem select_copy_paste (op : GoString) (a b : Int) (editor : Editor)
    (h0 : 0 ≤ a) (h1 : a ≤ b) (h2 : b < (editor.text.length : Int))
    (hfit : editor.text.length < 2 ^ 63) (hclip : editor.clipboard.length < 2 ^ 63) :
    runCalls [.selectArea (decimal a ++ [32] ++ decimal b), .copy,
        .paste [op, decimal 1]] editor
      = .done { editor with
          selected := (editor.text.drop a.toNat).take (b.toNat - a.toNat + 1)
          start_selected := a
          end_selected := b
          cursor := b + 1
          clipboard := editor.clipboard
            ++ [(editor.text.drop a.toNat).take (b.toNat - a.toNat + 1)] } := by
  have hs : clampInt a = a := by unfold clampInt minInt maxInt; split_ifs <;> omega
  have he : clampInt b = b := by unfold clampInt minInt maxInt; split_ifs <;> omega
  have hw : wrapInt (b + 1) = b + 1 := wrapInt_of_range (by omega) (by omega)
  have hn : (b + 1).toNat - a.toNat = b.toNat - a.toNat + 1 := by omega
  have hsel : selectArea (decimal a ++ [32] ++ decimal b) editor = .done { editor with
      selected := (editor.text.drop a.toNat).take (b.toNat - a.toNat + 1)
      start_selected := a
      end_selected := b
      cursor := b + 1 } := by
    rw [selectArea_decimal, hs, he, hw,
      slice_of_bounds editor.text a (b + 1) h0 (by omega) (by omega), hn]
  have hlen : ((editor.text.drop a.toNat).take (b.toNat - a.toNat + 1)).length
      = b.toNat - a.toNat + 1 := by
    rw [List.length_take, List.length_drop]
    omega
  have hne : (editor.text.drop a.toNat).take (b.toNat - a.toNat + 1) ≠ [] := by
    intro h
    rw [h] at hlen
    simp at hlen
  have h1c : clampInt 1 = 1 := by unfold clampInt minInt maxInt; split_ifs <;> omega
  have hidx : index (editor.clipboard
        ++ [(editor.text.drop a.toNat).take (b.toNat - a.toNat + 1)])
      (wrapInt (((editor.clipboard
        ++ [(editor.text.drop a.toNat).take (b.toNat - a.toNat + 1)]).length : Int) - 1))
      = some ((editor.text.drop a.toNat).take (b.toNat - a.toNat + 1)) := by
    rw [List.length_append, List.length_singleton, wrapInt_of_range (by omega) (by omega)]
    unfold index
    rw [if_pos (by rw [List.length_append, List.length_singleton]; omega)]
    have : ((((editor.clipboard.length + 1 : Nat) : Int)) - 1).toNat
        = editor.clipboard.length := by omega
    rw [this]
    simp
  have htext : editor.text.take a.toNat
      ++ (editor.text.drop a.toNat).take (b.toNat - a.toNat + 1)
      ++ editor.text.drop (b + 1).toNat = editor.text := by
    rw [← List.take_add]
    have : a.toNat + (b.toNat - a.toNat + 1) = (b + 1).toNat := by omega
    rw [this, List.take_append_drop]
  have hne0 : ((editor.text.drop a.toNat).take (b.toNat - a.toNat + 1)).length ≠ 0 := by
    rw [hlen]
    omega
  have hcopy : copy { editor with
        selected := (editor.text.drop a.toNat).take (b.toNat - a.toNat + 1)
        start_selected := a
        end_selected := b
        cursor := b + 1 }
      = .done { editor with
          selected := (editor.text.drop a.toNat).take (b.toNat - a.toNat + 1)
          start_selected := a
          end_selected := b
          cursor := b + 1
          clipboard := editor.clipboard
            ++ [(editor.text.drop a.toNat).take (b.toNat - a.toNat + 1)] } := by
    unfold copy
    exact if_pos hne0
  have hins := insertText_replace
    ((editor.text.drop a.toNat).take (b.toNat - a.toNat + 1))
    { editor with
      selected := (editor.text.drop a.toNat).take (b.toNat - a.toNat + 1)
      start_selected := a
      end_selected := b
      cursor := b + 1
      clipboard := editor.clipboard
        ++ [(editor.text.drop a.toNat).take (b.toNat - a.toNat + 1)] }
    hne h0 h1 h2 hfit (by simp only [hlen]; omega)
  simp only [htext, hlen] at hins
  have hcur : a + ((b.toNat - a.toNat + 1 : Nat) : Int) = b + 1 := by omega
  rw [hcur] at hins
  simp only [runCalls, Call.run, hsel, hcopy]
  rw [paste_decimal, h1c,
    if_pos (by simp only [List.length_append, List.length_singleton]; omega), hidx]
  simp only [hins]

/-- Witness for the amended C11: on `Hello`, selecting `1..3`, copying and pasting the
latest copy leaves the text `Hello`, with `ell` on the clipboard and the cursor at 4. -/
theorem select_copy_paste_witness :
    runCalls [.selectArea (decimal 1 ++ [32] ++ decimal 3), .copy,
        .paste [bytes "PASTE", decimal 1]] helloTyped
      = .done { helloTyped with
          selected := bytes "ell", start_selected := 1, end_selected := 3, cursor := 4,
          clipboard := [bytes "ell"] } :=
  select_copy_paste (bytes "PASTE") 1 3 helloTyped (by decide) (by decide) (by decide)
    (by decide) (by decide)

/-! ## C12: the clipboard only grows at its end -/

theorem insertText_clipboard {text : GoString} {editor editor' : Editor}
    (h : insertText text editor = .done editor') : editor'.clipboard = editor.clipboard := by
  have hf := (insertText_frame text editor).2.2.2
  rw [h] at hf
  exact hf

theorem selectArea_clipboard {indices : GoString} {editor editor' : Editor}
    (h : selectArea indices editor = .done editor') :
    editor'.clipboard = editor.clipboard := by
  unfold selectArea at h
  simp only at h
  split at h
  · split at h
    · injection h with h
      subst h
      rfl
    · exact absurd h (by simp)
  · exact absurd h (by simp)

theorem moveCursor_clipboard {offset_string : GoString} {editor editor' : Editor}
    (h : moveCursor offset_string editor = .done editor') :
    editor'.clipboard = editor.clipboard := by
  unfold moveCursor at h
  simp only at h
  injection h with h
  subst h
  rfl

theorem paste_clipboard {paste_command : List GoString} {editor editor' : Editor}
    (h : paste paste_command editor = .done editor') :
    editor'.clipboard = editor.clipboard := by
  unfold paste at h
  simp only at h
  split at h
  · exact absurd h (by simp)
  · split_ifs at h
    · split at h
      · exact insertText_clipboard h
      · exact absurd h (by simp)
    · injection h with h
      subst h
      rfl

/-- Claim C12. For every call of `insertText`, `selectArea`, `moveCursor`, `copy` or
`paste` that returns, the clipboard before the call is an initial segment of the
clipboard after it, and for every call other than `copy` the clipboard is unchanged. -/
theorem clipboard_append_only (c : Call) (editor editor' : Editor)
    (h : c.run editor = .done editor') :
    editor.clipboard <+: editor'.clipboard ∧
      (c ≠ .copy → editor'.clipboard = editor.clipboard) := by
  cases c with
  | insertText text =>
    have hc := insertText_clipboard h
    exact ⟨hc ▸ List.prefix_refl _, fun _ => hc⟩
  | selectArea indices =>
    have hc := selectArea_clipboard h
    exact ⟨hc ▸ List.prefix_refl _, fun _ => hc⟩
  | moveCursor offset_string =>
    have hc := moveCursor_clipboard h
    exact ⟨hc ▸ List.prefix_refl _, fun _ => hc⟩
  | copy =>
    refine ⟨?_, fun hne => absurd rfl hne⟩
    simp only [Call.run] at h
    unfold copy at h
    split_ifs at h <;> injection h with h <;> subst h
    · exact List.prefix_append _ _
    · exact List.prefix_refl _
  | paste paste_command =>
    have hc := paste_clipboard h
    exact ⟨hc ▸ List.prefix_refl _, fun _ => hc⟩

/-- Witness for C12: copying on `Hello World` with `Hello` selected and `World` on the
clipboard appends `Hello` after `World`. -/
theorem clipboard_append_only_witness :
    Call.copy.run helloSelected
      = .done { helloSelected with clipboard := [bytes "World", bytes "Hello"] } ∧
    [bytes "World"] <+: [bytes "World", bytes "Hello"] :=
  ⟨by decide,
   (clipboard_append_only .copy helloSelected
     { helloSelected with clipboard := [bytes "World", bytes "Hello"] } (by decide)).1⟩

/-! ## C13: insertion on reachable states -/

/-- Claim C13 fails on the code. The well-formed commands `TYPE Hello`, `SELECT 0 4`,
`TYPE Hi` all return and leave the text `Hi` with `selected` still `Hello` and bounds
`0..4`; on that reachable state `insertText` of `x` evaluates `text[5:]` on a text of
length 2 and stops with the slice-bounds fault. -/
theorem insertText_faults_on_reachable :
    runCommands [bytes "TYPE Hello", bytes "SELECT 0 4", bytes "TYPE Hi"] initial
      = .done staleBeyondText ∧
    insertText (bytes "x") staleBeyondText = .fault .sliceBounds staleBeyondText := by
  decide

/-! ## C17: two insertions in a row -/

/-- Claim C17 fails on the code. On `Hello World` with `Hello` selected (valid cursor
and bounds), inserting `Hi` and then `!` gives the text `!rld` with the cursor at 1: the
second insertion deletes `text[0..4]` again. A single insertion of `Hi!` gives
`Hi! World` with the cursor at 3. -/
theorem insertText_twice_deletes_again :
    runCalls [.insertText (bytes "Hi"), .insertText (bytes "!")] helloSelected
      = .done { helloSelected with text := bytes "!rld", cursor := 1 } ∧
    insertText (bytes "Hi" ++ bytes "!") helloSelected
      = .done { helloSelected with text := bytes "Hi! World", cursor := 3 } := by
  decide

/-! ## C18: the direction of a cursor move -/

/-- Claim C18 fails on the code. On `Hello` with the cursor at 5, `MOVE_CURSOR` with the
positive offset `9223372036854775807` returns with the cursor at 0: the sum
`cursor + offset` wraps to a negative `int`, which is then clamped to 0. -/
theorem moveCursor_positive_offset_moves_left :
    atoi (bytes "9223372036854775807") = 9223372036854775807 ∧
    wrapInt (helloTyped.cursor + 9223372036854775807) = -9223372036854775804 ∧
    moveCursor (bytes "9223372036854775807") helloTyped
      = .done { helloTyped with cursor := 0 } ∧
    (0 : Int) < helloTyped.cursor := by
  decide

/-! ## C19: the end of the loop after a line -/

/-- Claim C19 fails on the code. The line with the quoted commands `EXIT` and `TYPE a`
holds an `EXIT`, yet after it the flag `end` is false, so the loop prints the text and
goes on: `TYPE a`, run after `EXIT`, assigned `false` to `end` (and typed `a`). -/
theorem exit_overwritten_by_later_command :
    quotedSegments exitThenType = [bytes "EXIT", bytes "TYPE a"] ∧
    executeOption (bytes "EXIT") initial = .done true initial ∧
    processLine exitThenType false initial
      = .done false { initial with text := bytes "a", cursor := 1 } := by
  decide

/-! ## The dispatcher -/

theorem splitN2_head (command : GoString) :
    ∃ tail, splitN2 32 command = operationWord command :: tail := by
  induction command with
  | nil => exact ⟨[], rfl⟩
  | cons c cs ih =>
    obtain ⟨tail, ht⟩ := ih
    by_cases hc : c = 32
    · refine ⟨[cs], ?_⟩
      subst hc
      simp [splitN2, operationWord]
    · refine ⟨tail, ?_⟩
      rw [splitN2, if_neg hc, ht]
      simp [operationWord, List.takeWhile, hc]

theorem index_zero_cons {α : Type} (x : α) (xs : List α) : index (x :: xs) 0 = some x := by
  simp [index]

theorem returnFalse_ne_true (o : Outcome) (e : Editor) : returnFalse o ≠ .done true e := by
  cases o <;> simp [returnFalse]

/-- A command whose operation word is `EXIT` returns `true` and assigns nothing. -/
theorem executeOption_of_exit (command : GoString) (editor : Editor)
    (h : operationWord command = bytes "EXIT") :
    executeOption command editor = .done true editor := by
  obtain ⟨tail, ht⟩ := splitN2_head command
  unfold executeOption
  simp only [ht, index_zero_cons, h]
  rw [if_neg (by decide), if_neg (by decide), if_neg (by decide), if_neg (by decide),
    if_neg (by decide)]
  simp

/-- A command whose operation word is not `EXIT` never returns `true`. -/
theorem executeOption_not_exit (command : GoString) (editor e : Editor)
    (h : operationWord command ≠ bytes "EXIT") :
    executeOption command editor ≠ .done true e := by
  obtain ⟨tail, ht⟩ := splitN2_head command
  unfold executeOption
  simp only [ht, index_zero_cons]
  split_ifs
  · split
    · exact returnFalse_ne_true _ _
    · simp
  · split
    · exact returnFalse_ne_true _ _
    · simp
  · split
    · exact returnFalse_ne_true _ _
    · simp
  · exact returnFalse_ne_true _ _
  · exact returnFalse_ne_true _ _
  · simp

/-! ## C15: the termination signal -/

/-- Claim C15. `executeOption` returns `true` exactly when the operation word of the
command (the text before the first space) is `EXIT`, and then the editor state is the
one it was called on. -/
theorem executeOption_true_iff_exit (command : GoString) (editor : Editor) :
    ((∃ e, executeOption command editor = .done true e)
        ↔ operationWord command = bytes "EXIT") ∧
      (∀ e, executeOption command editor = .done true e → e = editor) := by
  by_cases h : operationWord command = bytes "EXIT"
  · have hx := executeOption_of_exit command editor h
    refine ⟨⟨fun _ => h, fun _ => ⟨editor, hx⟩⟩, ?_⟩
    intro e he
    rw [hx] at he
    injection he with _ he
    exact he.symm
  · refine ⟨⟨fun ⟨e, he⟩ => absurd he (executeOption_not_exit command editor e h),
      fun hh => absurd hh h⟩, ?_⟩
    intro e he
    exact absurd he (executeOption_not_exit command editor e h)

/-! ## C16: operations that are not recognised -/

/-- Claim C16. A command whose operation word is none of `TYPE`, `SELECT`,
`MOVE_CURSOR`, `COPY`, `PASTE`, `EXIT` makes `executeOption` return `false` without a
fault and with every field of the editor unchanged. -/
theorem executeOption_unrecognized (command : GoString) (editor : Editor)
    (h : operationWord command ∉ [bytes "TYPE", bytes "SELECT", bytes "MOVE_CURSOR",
      bytes "COPY", bytes "PASTE", bytes "EXIT"]) :
    executeOption command editor = .done false editor := by
  obtain ⟨tail, ht⟩ := splitN2_head command
  simp only [List.mem_cons, List.mem_singleton, List.not_mem_nil, or_false, not_or] at h
  obtain ⟨h1, h2, h3, h4, h5, h6⟩ := h
  unfold executeOption
  simp only [ht, index_zero_cons]
  rw [if_neg h1, if_neg h2, if_neg h3, if_neg h4, if_neg h5, if_neg h6]

/-- Witness for C16: the lower-case command `type Hello` and the empty command change
nothing and return `false`. -/
theorem executeOption_unrecognized_witness :
    operationWord (bytes "type Hello") = bytes "type" ∧
    executeOption (bytes "type Hello") helloSelected = .done false helloSelected ∧
    executeOption (bytes "") helloSelected = .done false helloSelected :=
  ⟨by decide,
   executeOption_unrecognized (bytes "type Hello") helloSelected (by decide),
   by decide⟩

/-! ## Arguments that are not numerals -/

theorem atoi_of_syntaxError (s : GoString) (h : atoiSyntaxError s) : atoi s = 0 := by
  unfold atoiSyntaxError at h
  cases s with
  | nil => rfl
  | cons c rest =>
    rcases h with h | h
    · exact absurd h (by simp)
    · simp only at h
      simp only [atoi, h]

/-- Pasting with any argument: the guard and the clipboard index are computed from the
value `strconv.Atoi` returns. -/
theorem paste_arg (op arg : GoString) (editor : Editor) :
    paste [op, arg] editor =
      if atoi arg ≤ (editor.clipboard.length : Int) then
        match index editor.clipboard
          (wrapInt ((editor.clipboard.length : Int) - atoi arg)) with
        | some entry => insertText entry editor
        | none => .fault .indexRange editor
      else .done editor := by
  have h1 : index [op, arg] 1 = some arg := by simp [index]
  unfold paste
  simp only [List.length_cons, List.length_nil, h1, Option.map_some']
  rfl

/-- Pasting with a value `v ≤ 0` for `steps_back`: the guard passes and the index
`len(clipboard) - v` is outside the clipboard. -/
theorem paste_nonpositive (op arg : GoString) (editor : Editor)
    (hfit : editor.clipboard.length < 2 ^ 63)
    (hv : atoi arg ≤ 0) (hmin : -(2 ^ 63) ≤ atoi arg) :
    paste [op, arg] editor = .fault .indexRange editor := by
  rw [paste_arg, if_pos (by omega)]
  have hi : index editor.clipboard
      (wrapInt ((editor.clipboard.length : Int) - atoi arg)) = none := by
    unfold index
    rw [if_neg]
    unfold wrapInt
    omega
  rw [hi]

/-- Selecting with an argument of two pieces without spaces: the pieces are parsed and
the slice expression decides. -/
theorem selectArea_pair (a b : GoString) (editor : Editor)
    (ha : (32 : UInt8) ∉ a) (hb : (32 : UInt8) ∉ b) :
    selectArea (a ++ [32] ++ b) editor =
      match slice editor.text (atoi a) (wrapInt (atoi b + 1)) with
      | some sel =>
        .done { editor with
          selected := sel
          start_selected := atoi a
          end_selected := atoi b
          cursor := wrapInt (atoi b + 1) }
      | none => .fault .sliceBounds editor := by
  have hsplit : split 32 (a ++ [32] ++ b) = [a, b] := by
    rw [List.append_assoc, List.singleton_append, split_append_sep 32 _ _ ha,
      split_of_not_mem 32 _ hb]
  have h0 : index [a, b] 0 = some a := by simp [index]
  have h1 : index [a, b] 1 = some b := by simp [index]
  unfold selectArea
  simp only [hsplit, h0, h1]

/-- Selecting with an argument that holds no space: `indices_splitted[1]` is out of
range. -/
theorem selectArea_no_space (indices : GoString) (editor : Editor)
    (h : (32 : UInt8) ∉ indices) :
    selectArea indices editor = .fault .indexRange editor := by
  have h0 : index [indices] 0 = some indices := by simp [index]
  have h1 : index [indices] 1 = none := by simp [index]
  unfold selectArea
  simp only [split_of_not_mem 32 _ h, h0, h1]

/-! ## C14: arguments that are not numerals -/

/-- Claim C14 fails as stated. On `Hello` with `Hello` selected, `moveCursor` with the
argument `abc` returns without a fault and empties `selected`; on `Hello`, `selectArea`
with the argument `x 0` returns and selects `H`. -/
theorem malformed_argument_not_rejected :
    atoi (bytes "abc") = 0 ∧ atoi (bytes "x") = 0 ∧
    moveCursor (bytes "abc") helloAllSelected
      = .done { helloAllSelected with selected := [] } ∧
    ({ helloAllSelected with selected := [] } : Editor) ≠ helloAllSelected ∧
    selectArea (bytes "x 0") helloTyped
      = .done { helloTyped with
          selected := bytes "H", start_selected := 0, end_selected := 0, cursor := 1 } := by
  decide

/-- Claim C14, amended. An argument on which `strconv.Atoi` reports a syntax error is
not rejected: the error is discarded and the value 0 is used. `moveCursor` returns as
with the offset 0, with `selected` emptied and `text` and the clipboard unchanged;
`paste` stops with the index fault on the clipboard, as with `stepsBack = 0`, every field
unchanged; `selectArea` uses 0 for such a piece of a two-piece argument; and
`selectArea` with an argument without a space stops with the index fault, every field
unchanged. -/
theorem malformed_argument_read_as_zero (op arg : GoString) (editor : Editor)
    (h : atoiSyntaxError arg) (hclip : editor.clipboard.length < 2 ^ 63) :
    atoi arg = 0 ∧
      moveCursor arg editor = moveCursor (decimal 0) editor ∧
      (∃ e, moveCursor arg editor = .done e ∧ e.selected = [] ∧ e.text = editor.text ∧
        e.clipboard = editor.clipboard) ∧
      paste [op, arg] editor = .fault .indexRange editor ∧
      (∀ other, (32 : UInt8) ∉ arg → (32 : UInt8) ∉ other →
        selectArea (arg ++ [32] ++ other) editor
            = selectArea (decimal 0 ++ [32] ++ other) editor ∧
          selectArea (other ++ [32] ++ arg) editor
            = selectArea (other ++ [32] ++ decimal 0) editor) ∧
      (∀ indices, (32 : UInt8) ∉ indices →
        selectArea indices editor = .fault .indexRange editor) := by
  have h0 : atoi arg = 0 := atoi_of_syntaxError arg h
  have hd : atoi (decimal 0) = 0 := by rw [atoi_decimal]; rfl
  refine ⟨h0, ?_, ?_, ?_, ?_, ?_⟩
  · unfold moveCursor
    rw [h0, hd]
  · exact ⟨_, rfl, rfl, rfl, rfl⟩
  · exact paste_nonpositive op arg editor hclip (by omega) (by omega)
  · intro other ha ho
    have hs := space_not_mem_decimal 0
    rw [selectArea_pair _ _ _ ha ho, selectArea_pair _ _ _ hs ho,
      selectArea_pair _ _ _ ho ha, selectArea_pair _ _ _ ho hs, h0, hd]
    exact ⟨rfl, rfl⟩
  · intro indices hi
    exact selectArea_no_space indices editor hi

/-- Witness for the amended C14: the argument `abc` on `Hello World` with `Hello`
selected and `World` on the clipboard. -/
theorem malformed_argument_read_as_zero_witness :
    atoiSyntaxError (bytes "abc") ∧
    moveCursor (bytes "abc") helloSelected = .done { helloSelected with selected := [] } ∧
    paste [bytes "PASTE", bytes "abc"] helloSelected = .fault .indexRange helloSelected :=
  ⟨by unfold atoiSyntaxError; decide, by decide,
   (malformed_argument_read_as_zero (bytes "PASTE") (bytes "abc") helloSelected
     (by unfold atoiSyntaxError; decide) (by decide)).2.2.2.1⟩

/-! ## C20: the clipboard index of a paste -/

/-- Claim C20. For `stepsBack ≤ 0`, and for an argument that does not parse, the guard
`steps_back <= len(clipboard)` passes and `paste` stops with the index fault on the
clipboard before any field is assigned; for `stepsBack ≥ 1` the clipboard is read inside
its range (`1 ≤ stepsBack ≤ len(clipboard)`) or not read at all. -/
theorem paste_index_safety (op : GoString) (k : Int) (editor : Editor)
    (hfit : editor.clipboard.length + 1 < 2 ^ 63) :
    (k ≤ 0 → paste [op, decimal k] editor = .fault .indexRange editor) ∧
      (1 ≤ k → k ≤ (editor.clipboard.length : Int) →
        ∃ entry, editor.clipboard.get? (editor.clipboard.length - k.toNat) = some entry ∧
          paste [op, decimal k] editor = insertText entry editor) ∧
      (1 ≤ k → (editor.clipboard.length : Int) < k →
        paste [op, decimal k] editor = .done editor) ∧
      (∀ arg, atoiSyntaxError arg →
        paste [op, arg] editor = .fault .indexRange editor) := by
  refine ⟨?_, ?_, ?_, ?_⟩
  · intro hk
    apply paste_nonpositive op _ editor (by omega)
    · rw [atoi_decimal]
      unfold clampInt minInt maxInt
      split_ifs <;> omega
    · rw [atoi_decimal]
      unfold clampInt minInt maxInt
      split_ifs <;> omega
  · intro h1 h2
    have hk : clampInt k = k := by unfold clampInt minInt maxInt; split_ifs <;> omega
    have hw : wrapInt ((editor.clipboard.length : Int) - k)
        = (editor.clipboard.length : Int) - k := wrapInt_of_range (by omega) (by omega)
    have hi : ((editor.clipboard.length : Int) - k).toNat
        = editor.clipboard.length - k.toNat := by omega
    have hlt : editor.clipboard.length - k.toNat < editor.clipboard.length := by omega
    refine ⟨editor.clipboard.get ⟨_, hlt⟩, List.get?_eq_get hlt, ?_⟩
    rw [paste_decimal, hk, if_pos h2, hw]
    unfold index
    rw [if_pos (by omega), hi, List.get?_eq_get hlt]
  · intro _ h2
    rw [paste_decimal, if_neg]
    unfold clampInt minInt maxInt
    split_ifs <;> omega
  · intro arg ha
    have h0 := atoi_of_syntaxError arg ha
    exact paste_nonpositive op arg editor (by omega) (by omega) (by omega)

/-- Witness for C20: with `World` on the clipboard, `PASTE 0`, `PASTE -1` and `PASTE x`
stop with the index fault and change nothing. -/
theorem paste_index_safety_witness :
    decimal 0 = bytes "0" ∧ decimal (-1) = bytes "-1" ∧
    paste [bytes "PASTE", decimal 0] helloSelected = .fault .indexRange helloSelected ∧
    paste [bytes "PASTE", decimal (-1)] helloSelected = .fault .indexRange helloSelected ∧
    paste [bytes "PASTE", bytes "x"] helloSelected = .fault .indexRange helloSelected :=
  ⟨by decide, by decide,
   (paste_index_safety (bytes "PASTE") 0 helloSelected (by decide)).1 (by decide),
   (paste_index_safety (bytes "PASTE") (-1) helloSelected (by decide)).1 (by decide),
   (paste_index_safety (bytes "PASTE") 0 helloSelected (by decide)).2.2.2 (bytes "x")
     (by unfold atoiSyntaxError; decide)⟩

/-! ## Supporting facts for C17 and C18 -/

/-- Without an active selection two insertions in a row do what one insertion of the
concatenation does. -/
theorem insertText_twice_noSelection (x y : GoString) (editor : Editor)
    (hsel : editor.selected = [])
    (h0 : 0 ≤ editor.cursor) (h1 : editor.cursor ≤ (editor.text.length : Int))
    (hlen : editor.text.length + x.length + y.length < 2 ^ 63) :
    runCalls [.insertText x, .insertText y] editor = insertText (x ++ y) editor := by
  have hla : (editor.text.take editor.cursor.toNat ++ x).length
      = (editor.cursor + (x.length : Int)).toNat := by
    rw [List.length_append, List.length_take]
    omega
  have hx := insertText_noSelection x editor hsel h0 h1 (by omega)
  have hy := insertText_noSelection y
    { editor with
      text := editor.text.take editor.cursor.toNat ++ x
        ++ editor.text.drop editor.cursor.toNat
      cursor := editor.cursor + x.length }
    hsel (by simp only; omega)
    (by
      simp only [List.length_append, List.length_take, List.length_drop]
      omega)
    (by
      simp only [List.length_append, List.length_take, List.length_drop]
      omega)
  simp only [List.take_left' hla, List.drop_left' hla] at hy
  have hxy := insertText_noSelection (x ++ y) editor hsel h0 h1
    (by rw [List.length_append]; omega)
  simp only [runCalls, Call.run, hx, hy, hxy]
  congr 2
  · simp
  · rw [List.length_append]
    push_cast
    omega

/-- With a valid cursor, a move by an offset whose sum with the cursor does not exceed
the largest `int` goes in the direction of the offset's sign: not to the left for a
positive offset, not to the right for a negative one. -/
theorem moveCursor_direction (offset : Int) (editor : Editor)
    (hc0 : 0 ≤ editor.cursor) (hc1 : editor.cursor ≤ (editor.text.length : Int))
    (hfit : editor.text.length < 2 ^ 63)
    (hlo : -(2 ^ 63) ≤ offset) (hno : editor.cursor + offset < 2 ^ 63) :
    ∃ e, moveCursor (decimal offset) editor = .done e ∧
      (0 < offset → editor.cursor ≤ e.cursor) ∧ (offset < 0 → e.cursor ≤ editor.cursor) := by
  refine ⟨_, moveCursor_decimal offset editor, ?_, ?_⟩
  · intro hp
    simp only
    unfold clampInt wrapInt minInt maxInt
    split_ifs <;> omega
  · intro hn
    simp only
    unfold clampInt wrapInt minInt maxInt
    split_ifs <;> omega

/-! ## Sample evaluations of the library model -/

/-- Sample values of `strconv.Atoi`: signs, saturation at the ends of `int`, and 0 on a
syntax error; of `strings.Split` and `strings.SplitN`; and of the decimal numerals. -/
theorem library_samples :
    atoi (bytes "-12") = -12 ∧ atoi (bytes "+7") = 7 ∧
    atoi (bytes "9223372036854775808") = 9223372036854775807 ∧
    atoi (bytes "-9223372036854775809") = -9223372036854775808 ∧
    atoi (bytes "12a") = 0 ∧ atoi (bytes "+") = 0 ∧ atoi (bytes "") = 0 ∧
    split 32 (bytes "0 4") = [bytes "0", bytes "4"] ∧
    split 32 (bytes "a  b") = [bytes "a", bytes "", bytes "b"] ∧
    splitN2 32 (bytes "TYPE a b") = [bytes "TYPE", bytes "a b"] ∧
    splitN2 32 (bytes "COPY") = [bytes "COPY"] ∧
    decimal 0 = bytes "0" ∧ decimal (-15) = bytes "-15" ∧ decimal 2024 = bytes "2024" := by
  decide

end TextEditor
